import Mathlib

/-!
# Verification of the HianimeDownloader batch engine (src/main2.py)

A shallow embedding of the job construction, deduplication, dispatch routing
and fault-isolated batch execution engine of `src/main2.py`, together with
theorems settling the specification claims about it.

Modelling conventions:
* Python argparse namespaces become the `Args` structure.  The `link`
  attribute holds a list at startup (argparse `append`) and is overwritten
  per job with a URL string or `None`; the sum type `LinkVal` captures all
  three shapes together with Python truthiness.
* The file system is an oracle `fs : String → Option String` mapping a path
  to its text content when the file exists.
* Wall-clock durations are abstract natural numbers of seconds supplied by
  oracles; `Fore` colour codes are ignored; console output is modelled as a
  list of `Event`s.
* The external extraction collaborators are an oracle
  `exec : Strategy → Args → Except String Unit` (`extractor.run()` either
  completes or raises an error message).
* The Python string primitives used by the source (`str.strip`,
  `str.lower`, `str.startswith`, substring `in`, `str.splitlines`) are
  implemented here by structural recursion over the character list of the
  string, so that every definition evaluates inside the kernel.
  `pyStrip` strips the ASCII whitespace characters (the exotic-Unicode
  whitespace difference is immaterial here); `pyLower` lowercases ASCII;
  `splitLines` splits at `\n`, `\r` and `\r\n` like `str.splitlines`
  except that a trailing terminator yields one final empty entry, which
  the strip-then-skip-blank processing that follows always discards.
-/

deriving instance DecidableEq for Except

namespace Hianime

/-- Is the first list a prefix of the second (character-wise)? -/
def listPrefixOf : List Char → List Char → Bool
  | [], _ => true
  | _ :: _, [] => false
  | a :: as, b :: bs => a = b && listPrefixOf as bs

/-- Does the pattern occur as a contiguous sublist (Python substring `in`)? -/
def occursIn (pat : List Char) : List Char → Bool
  | [] => pat.isEmpty
  | c :: cs => listPrefixOf pat (c :: cs) || occursIn pat cs

/-- Python `str.lower`, ASCII range (the source only lowercases scheme
prefixes). -/
def pyLower (s : String) : String := String.mk (s.data.map Char.toLower)

/-- Python `str.startswith`. -/
def strStartsWith (s p : String) : Bool := listPrefixOf p.data s.data

/-- Python `x in s` substring membership on strings. -/
def strContains (s m : String) : Bool := occursIn m.data s.data

/-- The whitespace characters Python `str.strip` removes (ASCII range). -/
def isPyWS (c : Char) : Bool :=
  c = ' ' || c = '\t' || c = '\n' || c = '\r' || c = '\x0b' || c = '\x0c'

/-- Drop leading Python whitespace. -/
def dropWS : List Char → List Char
  | [] => []
  | c :: cs => if isPyWS c then dropWS cs else c :: cs

/-- Python `str.strip`: drop leading and trailing whitespace. -/
def pyStrip (s : String) : String :=
  String.mk ((dropWS ((dropWS s.data).reverse)).reverse)

/-- Python `str.splitlines` over the character list: split at `\n`, `\r`
and `\r\n`.  (A trailing terminator additionally yields a final empty
entry, which the caller always strips and skips as blank.) -/
def splitLinesAux : List Char → List Char → List String
  | [], acc => [String.mk acc.reverse]
  | '\r' :: '\n' :: cs, acc => String.mk acc.reverse :: splitLinesAux cs []
  | '\r' :: cs, acc => String.mk acc.reverse :: splitLinesAux cs []
  | '\n' :: cs, acc => String.mk acc.reverse :: splitLinesAux cs []
  | c :: cs, acc => splitLinesAux cs (c :: acc)

/-- Python `content.splitlines()` (see `splitLinesAux`). -/
def splitLines (s : String) : List String := splitLinesAux s.data []

/-- The runtime value of the `link` attribute of an argparse namespace in
`main2.py`: a list of strings at startup (repeatable `-l` flag), and after
per-job materialization either a URL string or Python `None`. -/
inductive LinkVal where
  | list (ls : List String)
  | url (s : String)
  | none
deriving DecidableEq, Repr

/-- Python truthiness of a `link` value: a list is truthy iff non-empty, a
string iff non-empty, `None` is falsy. -/
def LinkVal.truthy : LinkVal → Bool
  | .list ls => !ls.isEmpty
  | .url s => s ≠ ""
  | .none => false

/-- Python `in` on the `link` value: substring test on a string, membership
on a list. Only reached when the value is truthy. -/
def LinkVal.containsSub : LinkVal → String → Bool
  | .url s, m => strContains s m
  | .list ls, m => ls.contains m
  | .none, _ => false

/-- The underlying list of a startup `link` value (`jobs.extend(self.args.link)`). -/
def LinkVal.asList : LinkVal → List String
  | .list ls => ls
  | .url s => [s]
  | .none => []

/-- The argparse namespace of `main2.py` (`parse_args`, lines 140-199). -/
structure Args where
  noSubtitles : Bool
  outputDir : String
  filename : String
  aria : Bool
  link : LinkVal
  linksFile : Option String
  continueOnError : Bool
  server : Option String
deriving DecidableEq, Repr

/-- Line 32: `item.lower().startswith(("http://", "https://"))`. -/
def isUrl (item : String) : Bool :=
  strStartsWith (pyLower item) "http://" || strStartsWith (pyLower item) "https://"

/-- Python `f"{n:03d}"` for a natural number: decimal digits left-padded
with zeros to width 3. -/
def pad3 (n : Nat) : String :=
  let s := toString n
  if s.length < 3 then String.mk (List.replicate (3 - s.length) '0') ++ s else s

/-- Lines 29-39: derive a fresh per-job namespace from the base
configuration and resolve the raw item into it.  `idx` is the 1-based
position in the batch, `total` the batch size. -/
def materialize (base : Args) (item : String) (idx total : Nat) : Args :=
  let j := base
  if isUrl item then
    let j := { j with link := .url item }
    if j.filename ≠ "" ∧ total > 1 then
      { j with filename := j.filename ++ "_" ++ pad3 idx }
    else j
  else
    { j with link := .none, filename := item }

/-- Lines 78-85: the materialization performed inside the interactive
nested batch (same transformation, coded a second time in the source, with
the pasted-item count as the batch size). -/
def materializeNested (self : Args) (it : String) (i total : Nat) : Args :=
  let j := self
  if isUrl it then
    let j := { j with link := .url it }
    if j.filename ≠ "" ∧ total > 1 then
      { j with filename := j.filename ++ "_" ++ pad3 i }
    else j
  else
    { j with link := .none, filename := it }

/-- Line 61: the condition under which `get_extractor` enters the
interactive prompt path (`not args.link and not args.filename`). -/
def entersInteractive (a : Args) : Bool :=
  !a.link.truthy && a.filename = ""

/-- The extraction strategies of lines 96-107: streaming-site extraction by
search term (`HianimeExtractor(args, name=...)`), streaming-site extraction
by URL (`HianimeExtractor(args)`), social-media extraction
(`InstagramExtractor`), and the general fallback (`GeneralExtractor`). -/
inductive Strategy where
  | hianimeSearch (name : String)
  | hianimeLink
  | instagram
  | general
deriving DecidableEq, Repr

/-- The capability set of the specification, section 4.3. -/
inductive StrategyKind where
  | streamingSite
  | socialMedia
  | generalWeb
deriving DecidableEq, Repr

/-- Which capability a concrete strategy realises. -/
def Strategy.kind : Strategy → StrategyKind
  | .hianimeSearch _ => .streamingSite
  | .hianimeLink => .streamingSite
  | .instagram => .socialMedia
  | .general => .generalWeb

/-- Lines 98-107 of `get_extractor`: the non-interactive routing decision
(reached whenever the interactive branch of line 61 was not taken, or after
the single-entry interactive fallthrough resolved the link). -/
def routeCore (a : Args) : Strategy :=
  if !a.link.truthy && a.filename ≠ "" then .hianimeSearch a.filename
  else if a.link.truthy && a.link.containsSub "hianime" then .hianimeLink
  else if a.link.truthy && a.link.containsSub "instagram.com" then .instagram
  else .general

/-- Lines 132-138: order-preserving deduplication with a `seen` set,
modelled recursively with the set carried as a list (only membership is
used). -/
def dedupFrom (seen : List String) : List String → List String
  | [] => []
  | j :: rest =>
      if j ∈ seen then dedupFrom seen rest
      else j :: dedupFrom (j :: seen) rest

/-- The deduplication applied to the collected raw item list (line 131). -/
def dedup (l : List String) : List String := dedupFrom [] l

/-- Rendering of the specification words for dedup, section 8: keep an
element iff it did not already occur in the prefix before it (the
subsequence of first occurrences). -/
def keepFirstOcc (pre : List String) : List String → List String
  | [] => []
  | j :: rest =>
      if j ∈ pre then keepFirstOcc (pre ++ [j]) rest
      else j :: keepFirstOcc (pre ++ [j]) rest

/-- Lines 121-125: the links-file reading loop over the split lines — strip
each line, skip it when blank or when it starts with a comment marker,
otherwise collect it. -/
def collectFileLines : List String → List String
  | [] => []
  | line :: rest =>
      let line := pyStrip line
      if line = "" || strStartsWith line "#" then collectFileLines rest
      else line :: collectFileLines rest

/-- Lines 109-138, `build_jobs`: merge the repeated link flags, the
links-file lines and the bare-filename fallback into one ordered list and
deduplicate it.  A missing links file raises `FileNotFoundError`, modelled
as `Except.error`.  The Python truthiness test on `links_file` makes an
empty-string path behave as if no file was supplied. -/
def build_jobs (a : Args) (fs : String → Option String) : Except String (List String) :=
  let jobs : List String := if a.link.truthy then a.link.asList else []
  let withFile : Except String (List String) :=
    match a.linksFile with
    | Option.some p =>
        if p ≠ "" then
          match fs p with
          | Option.none => .error ("links file not found: " ++ p)
          | Option.some content => .ok (jobs ++ collectFileLines (splitLines content))
        else .ok jobs
    | Option.none => .ok jobs
  withFile.map fun jobs =>
    let jobs := if jobs.isEmpty ∧ a.filename ≠ "" ∧ !a.link.truthy then [a.filename] else jobs
    dedup jobs

/-- Console output relevant to the claims, one constructor per print site:
the empty-batch notice (line 21), the per-job progress header (lines 41-43),
the failure report (line 49), the per-job completion line printed in the
`finally` block (lines 52-57, carrying the formatted per-job elapsed time),
and the total-elapsed line of the `__main__` block (line 206). -/
inductive Event where
  | nothingToDo
  | processing (idx total : Nat) (item : String)
  | failed (item msg : String)
  | jobDone (idx total : Nat) (elapsed : String)
  | took (elapsed : String)
deriving DecidableEq, Repr

/-- Whether an event is the total-elapsed line. -/
def Event.isTook : Event → Bool
  | .took _ => true
  | _ => false

/-- The items of the per-job progress headers of a trace, in order: the
jobs that were actually attempted. -/
def processedItems : List Event → List String
  | [] => []
  | .processing _ _ it :: r => it :: processedItems r
  | _ :: r => processedItems r

/-- Python `f"{int(t // 60)}:{int(t % 60):02d}"` on a whole number of
seconds: minutes, a colon, and seconds zero-padded to width 2. -/
def formatTime (t : Nat) : String :=
  let s := toString (t % 60)
  toString (t / 60) ++ ":" ++ (if s.length < 2 then "0" ++ s else s)

/-- Lines 24-57: the batch loop of `Main.__init__`.  The try-block body
(`get_extractor(job_args)` followed by `extractor.run()`, lines 46-47) is
abstracted as the oracle `body`; `perT idx` is the per-job elapsed seconds.
On an error the failure is reported, the `finally` block still prints the
per-job completion line, and the loop continues exactly when
`continue_on_error` is set on the base namespace (line 50); otherwise the
error re-raises out of the loop. -/
def runJobs (body : Args → Except String Unit) (base : Args) (perT : Nat → Nat)
    (total : Nat) : Nat → List String → List Event × Option String
  | _, [] => ([], Option.none)
  | idx, item :: rest =>
      let jobArgs := materialize base item idx total
      match body jobArgs with
      | .ok _ =>
          let r := runJobs body base perT total (idx + 1) rest
          (.processing idx total item :: .jobDone idx total (formatTime (perT idx)) :: r.1, r.2)
      | .error e =>
          if base.continueOnError then
            let r := runJobs body base perT total (idx + 1) rest
            (.processing idx total item :: .failed item e ::
              .jobDone idx total (formatTime (perT idx)) :: r.1, r.2)
          else
            ([.processing idx total item, .failed item e,
              .jobDone idx total (formatTime (perT idx))], Option.some e)

/-- Lines 14-57, `Main.__init__`: build the job list (a missing links file
raises out of the constructor), report and stop when it is empty, otherwise
run the batch.  The second component is the error propagating out of the
constructor, if any. -/
def mainInit (body : Args → Except String Unit) (a : Args)
    (fs : String → Option String) (perT : Nat → Nat) : List Event × Option String :=
  match build_jobs a fs with
  | .error e => ([], Option.some e)
  | .ok jobs =>
      if jobs.isEmpty then ([Event.nothingToDo], Option.none)
      else runJobs body a perT jobs.length 1 jobs

/-- Lines 202-206, the `__main__` block: run `Main()`, and only when it
returns normally print the total-elapsed line; an exception propagates and
the print is never reached. -/
def mainProgram (body : Args → Except String Unit) (a : Args)
    (fs : String → Option String) (perT : Nat → Nat) (totalT : Nat) :
    List Event × Option String :=
  match mainInit body a fs perT with
  | (evs, Option.none) => (evs ++ [Event.took (formatTime totalT)], Option.none)
  | (evs, Option.some e) => (evs, Option.some e)

/-- Lines 66-71: the interactive reading loop — strip each input line, stop
at the first blank one, collect the rest in order. -/
def readItems : List String → List String
  | [] => []
  | l :: rest =>
      let l := pyStrip l
      if l = "" then [] else l :: readItems rest

/-- Lines 77-88: the nested batch run inside the interactive multi-item
branch.  Each pasted item is materialized (lines 78-85) and dispatched
through `get_extractor` again; since every pasted item is non-blank the
recursive dispatch never re-enters the interactive branch and reduces to
the routing of lines 98-107 (`routeCore`).  There is no try/except here:
the first extraction error propagates immediately.  Returns the performed
(strategy, job-namespace) invocations in order and the propagated error,
if any. -/
def nestedRun (exec : Strategy → Args → Except String Unit) (self : Args)
    (total : Nat) : Nat → List String → List (Strategy × Args) × Option String
  | _, [] => ([], Option.none)
  | i, it :: rest =>
      let jb := materializeNested self it i total
      let s := routeCore jb
      match exec s jb with
      | .ok _ =>
          let r := nestedRun exec self total (i + 1) rest
          ((s, jb) :: r.1, r.2)
      | .error e => ([(s, jb)], Option.some e)

/-- Lines 46-47 together with `get_extractor` (lines 59-107): dispatch one
job namespace and run the extractor it returns.  `self` is the mutable
`self.args` namespace (returned, possibly updated); `rawPasted` is the
oracle for the lines typed at the interactive prompt.  In the interactive
multi-item branch the source first assigns `self.args.link = []` (line 75),
then runs the nested batch, and finally returns a general extractor over
the ORIGINAL job namespace (line 89), which the caller then runs (line 47).
Result: the updated `self`, the (strategy, namespace) invocations run, and
the outcome. -/
def dispatchRun (exec : Strategy → Args → Except String Unit)
    (rawPasted : List String) (self jobArgs : Args) :
    Args × List (Strategy × Args) × Except String Unit :=
  if entersInteractive jobArgs then
    let items := readItems rawPasted
    if items.length > 1 then
      let self := { self with link := .list [] }
      let r := nestedRun exec self items.length 1 items
      match r.2 with
      | Option.some e => (self, r.1, .error e)
      | Option.none =>
          (self, r.1 ++ [(.general, jobArgs)], exec .general jobArgs)
    else
      let ans := items.headD ""
      if isUrl ans then
        let args := { jobArgs with link := .url ans }
        (self, [(routeCore args, args)], exec (routeCore args) args)
      else
        (self, [(.hianimeSearch ans, jobArgs)], exec (.hianimeSearch ans) jobArgs)
  else
    (self, [(routeCore jobArgs, jobArgs)], exec (routeCore jobArgs) jobArgs)

/-- Lines 24-57 restricted to jobs that do not take the interactive branch,
recording the (strategy, namespace) invocations actually performed: the
comparison point for the nested interactive batch of lines 77-88. -/
def batchRun (exec : Strategy → Args → Except String Unit) (base : Args)
    (total : Nat) : Nat → List String → List (Strategy × Args) × Option String
  | _, [] => ([], Option.none)
  | idx, item :: rest =>
      let jb := materialize base item idx total
      let s := routeCore jb
      match exec s jb with
      | .ok _ =>
          let r := batchRun exec base total (idx + 1) rest
          ((s, jb) :: r.1, r.2)
      | .error e =>
          if base.continueOnError then
            let r := batchRun exec base total (idx + 1) rest
            ((s, jb) :: r.1, r.2)
          else ([(s, jb)], Option.some e)

/-- An external collaborator that always completes. -/
def execOk : Strategy → Args → Except String Unit := fun _ _ => .ok ()

/-- A base namespace with every flag at its argparse default. -/
def defaultArgs : Args :=
  { noSubtitles := false, outputDir := "output", filename := "", aria := false,
    link := .list [], linksFile := Option.none, continueOnError := false,
    server := Option.none }

/-! ## Deduplication -/

theorem dedupFrom_eq_keepFirstOcc (l : List String) : ∀ (seen pre : List String),
    (∀ x : String, x ∈ seen ↔ x ∈ pre) → dedupFrom seen l = keepFirstOcc pre l := by
  induction l with
  | nil => intro seen pre _; rfl
  | cons j rest ih =>
    intro seen pre h
    by_cases hj : j ∈ seen
    · have hp : j ∈ pre := (h j).1 hj
      simp only [dedupFrom, keepFirstOcc, if_pos hj, if_pos hp]
      refine ih seen (pre ++ [j]) fun x => ?_
      rw [List.mem_append, List.mem_singleton, h x]
      constructor
      · exact fun hx => Or.inl hx
      · rintro (hx | rfl)
        · exact hx
        · exact hp
    · have hp : j ∉ pre := fun hp => hj ((h j).2 hp)
      simp only [dedupFrom, keepFirstOcc, if_neg hj, if_neg hp]
      refine congrArg (j :: ·) (ih (j :: seen) (pre ++ [j]) fun x => ?_)
      rw [List.mem_cons, List.mem_append, List.mem_singleton, h x]
      tauto

theorem mem_dedupFrom (x : String) (l : List String) : ∀ seen : List String,
    x ∈ dedupFrom seen l ↔ (x ∈ l ∧ x ∉ seen) := by
  induction l with
  | nil => intro seen; simp [dedupFrom]
  | cons j rest ih =>
    intro seen
    by_cases hj : j ∈ seen
    · rw [dedupFrom, if_pos hj, ih seen, List.mem_cons]
      constructor
      · rintro ⟨hx, hs⟩; exact ⟨Or.inr hx, hs⟩
      · rintro ⟨rfl | hx, hs⟩
        · exact absurd hj hs
        · exact ⟨hx, hs⟩
    · rw [dedupFrom, if_neg hj, List.mem_cons, ih (j :: seen), List.mem_cons]
      by_cases hxj : x = j
      · subst hxj; simp [hj]
      · simp only [List.mem_cons, hxj, false_or]

theorem nodup_dedupFrom (l : List String) : ∀ seen : List String,
    (dedupFrom seen l).Nodup := by
  induction l with
  | nil => intro seen; simp [dedupFrom]
  | cons j rest ih =>
    intro seen
    by_cases hj : j ∈ seen
    · rw [dedupFrom, if_pos hj]; exact ih seen
    · rw [dedupFrom, if_neg hj]
      refine List.nodup_cons.mpr ⟨fun hmem => ?_, ih (j :: seen)⟩
      exact ((mem_dedupFrom j rest (j :: seen)).1 hmem).2 (List.mem_cons_self j seen)

theorem sublist_dedupFrom (l : List String) : ∀ seen : List String,
    List.Sublist (dedupFrom seen l) l := by
  induction l with
  | nil => intro seen; simp [dedupFrom]
  | cons j rest ih =>
    intro seen
    by_cases hj : j ∈ seen
    · rw [dedupFrom, if_pos hj]; exact (ih seen).cons j
    · rw [dedupFrom, if_neg hj]; exact (ih (j :: seen)).cons₂ j

/-- C4: the collected job list is deduplicated by first occurrence — the
result equals the spec-rendered subsequence of first occurrences (an
element of the input is kept exactly when it did not occur earlier), it has
no duplicate, it is a subsequence of the input (no reordering), and it has
exactly the same members as the input. -/
theorem claim_c4_dedup_first_occurrences (l : List String) :
    dedup l = keepFirstOcc [] l ∧ (dedup l).Nodup ∧ List.Sublist (dedup l) l ∧
      (∀ x : String, x ∈ dedup l ↔ x ∈ l) := by
  refine ⟨dedupFrom_eq_keepFirstOcc l [] [] (by simp), nodup_dedupFrom l [],
    sublist_dedupFrom l [], fun x => ?_⟩
  rw [dedup, mem_dedupFrom]
  simp

/-! ## Job materialization -/

/-- C3: materializing a raw item with 1-based index `idx` out of `total`
jobs sets the link to the item and suffixes the base filename with the
zero-padded index exactly when the base filename is non-empty and the batch
has more than one job, for a URL item; a non-URL item nulls the link and
overwrites the filename with the item itself. -/
theorem claim_c3_materialize (base : Args) (item : String) (idx total : Nat) :
    (isUrl item = true →
      (materialize base item idx total).link = .url item ∧
      (materialize base item idx total).filename =
        (if base.filename ≠ "" ∧ total > 1 then base.filename ++ "_" ++ pad3 idx
         else base.filename)) ∧
    (isUrl item = false →
      (materialize base item idx total).link = .none ∧
      (materialize base item idx total).filename = item) := by
  refine ⟨fun h => ?_, fun h => ?_⟩
  · by_cases hc : base.filename ≠ "" ∧ total > 1
    · simp [materialize, h, hc]
    · simp [materialize, h, hc]
  · simp [materialize, h]

/-! ## Routing -/

theorem not_interactive_of_ne_empty (base : Args) (item : String) (idx total : Nat)
    (h : item ≠ "") : entersInteractive (materialize base item idx total) = false := by
  by_cases hu : isUrl item = true
  · by_cases hc : base.filename ≠ "" ∧ total > 1
    · simp [materialize, hu, hc, entersInteractive, LinkVal.truthy, h]
    · simp [materialize, hu, hc, entersInteractive, LinkVal.truthy, h]
  · simp [materialize, eq_false_of_ne_true hu, entersInteractive, LinkVal.truthy, h]

/-- C2: for a job namespace whose link is truthy or whose filename is
non-empty the interactive branch is skipped and the router returns exactly
one strategy, by first-match order: link absent with a filename present
routes to streaming-site extraction with the filename as search term; a
truthy link containing the streaming-site marker routes to streaming-site
extraction; otherwise a link containing the social-media marker routes to
social-media extraction; any other link routes to general-web extraction. -/
theorem claim_c2_router_total_first_match (a : Args) :
    ((a.link.truthy = true ∨ a.filename ≠ "") → entersInteractive a = false) ∧
    (a.link.truthy = false → a.filename ≠ "" →
      routeCore a = .hianimeSearch a.filename ∧
        (routeCore a).kind = .streamingSite) ∧
    (a.link.truthy = true → a.link.containsSub "hianime" = true →
      (routeCore a).kind = .streamingSite) ∧
    (a.link.truthy = true → a.link.containsSub "hianime" = false →
      a.link.containsSub "instagram.com" = true →
      (routeCore a).kind = .socialMedia) ∧
    (a.link.truthy = true → a.link.containsSub "hianime" = false →
      a.link.containsSub "instagram.com" = false →
      (routeCore a).kind = .generalWeb) := by
  refine ⟨fun h => ?_, fun h1 h2 => ?_, fun h1 h2 => ?_, fun h1 h2 h3 => ?_,
    fun h1 h2 h3 => ?_⟩
  · rcases h with h | h <;> simp [entersInteractive, h]
  · simp [routeCore, h1, h2, Strategy.kind]
  · simp [routeCore, h1, h2, Strategy.kind]
  · simp [routeCore, h1, h2, h3, Strategy.kind]
  · simp [routeCore, h1, h2, h3, Strategy.kind]

/-! ## Links-file parsing -/

theorem collectFileLines_sound : ∀ (lines : List String) (item : String),
    item ∈ collectFileLines lines →
    ∃ line, line ∈ lines ∧ item = pyStrip line ∧ item ≠ "" ∧
      strStartsWith item "#" = false := by
  intro lines
  induction lines with
  | nil => intro item h; simp [collectFileLines] at h
  | cons l rest ih =>
    intro item h
    simp only [collectFileLines] at h
    by_cases hc : (decide (pyStrip l = "") || strStartsWith (pyStrip l) "#") = true
    · rw [if_pos hc] at h
      obtain ⟨line, hmem, he⟩ := ih item h
      exact ⟨line, List.mem_cons_of_mem l hmem, he⟩
    · rw [if_neg hc] at h
      simp only [Bool.or_eq_true, decide_eq_true_eq, not_or, Bool.not_eq_true] at hc
      rcases List.mem_cons.mp h with rfl | h
      · exact ⟨l, List.mem_cons_self l rest, rfl, hc.1, hc.2⟩
      · obtain ⟨line, hmem, he⟩ := ih item h
        exact ⟨line, List.mem_cons_of_mem l hmem, he⟩

theorem collectFileLines_skip (line : String) (rest : List String)
    (h : pyStrip line = "" ∨ strStartsWith (pyStrip line) "#" = true) :
    collectFileLines (line :: rest) = collectFileLines rest := by
  rcases h with h | h <;> simp [collectFileLines, h]

theorem collectFileLines_eq_filter (lines : List String) :
    collectFileLines lines =
      (lines.map pyStrip).filter
        (fun l => !(decide (l = "") || strStartsWith l "#")) := by
  induction lines with
  | nil => rfl
  | cons l rest ih =>
    simp only [collectFileLines, List.map_cons, List.filter_cons]
    by_cases hc : (decide (pyStrip l = "") || strStartsWith (pyStrip l) "#") = true
    · simp [hc, ih]
    · simp only [Bool.not_eq_true] at hc
      simp [hc, ih]

/-- C10: links-file lines are stripped before the blank and comment tests
and before collection — every collected item is the strip of one of the
lines of the file, is non-blank, and does not start with the comment
marker; and a line that strips to blank, or whose first non-whitespace
character is the comment marker (even when indented), contributes no
item. -/
theorem claim_c10_lines_stripped_before_tests :
    (∀ (lines : List String) (item : String), item ∈ collectFileLines lines →
      ∃ line, line ∈ lines ∧ item = pyStrip line ∧ item ≠ "" ∧
        strStartsWith item "#" = false) ∧
    (∀ (line : String) (rest : List String),
      pyStrip line = "" ∨ strStartsWith (pyStrip line) "#" = true →
      collectFileLines (line :: rest) = collectFileLines rest) :=
  ⟨collectFileLines_sound, collectFileLines_skip⟩

/-- C9: a supplied (non-empty) links-file path that does not exist makes
the whole run fail with the missing-file error before any job is attempted
(the output trace is empty); an existing file contributes exactly its
stripped non-blank non-comment lines, in file order; and the documented
example file yields exactly its two payload lines. -/
theorem claim_c9_links_file_missing_and_parsing (a : Args)
    (fs : String → Option String) (p : String) (body : Args → Except String Unit)
    (perT : Nat → Nat) (totalT : Nat)
    (hp : a.linksFile = Option.some p) (hne : p ≠ "") :
    (fs p = Option.none →
      mainProgram body a fs perT totalT =
        ([], Option.some ("links file not found: " ++ p))) ∧
    (∀ lines : List String, collectFileLines lines =
      (lines.map pyStrip).filter
        (fun l => !(decide (l = "") || strStartsWith l "#"))) ∧
    collectFileLines (splitLines "# comment\n\nhttp://a.com\nfoo\n") =
      ["http://a.com", "foo"] := by
  refine ⟨fun hfs => ?_, collectFileLines_eq_filter, by decide⟩
  simp [mainProgram, mainInit, build_jobs, hp, hne, hfs, Except.map]

/-! ## Batch execution and failure policy -/

theorem runJobs_continue_all (body : Args → Except String Unit) (base : Args)
    (perT : Nat → Nat) (total : Nat) (hcoe : base.continueOnError = true) :
    ∀ (jobs : List String) (start : Nat),
      processedItems (runJobs body base perT total start jobs).1 = jobs ∧
      (runJobs body base perT total start jobs).2 = Option.none := by
  intro jobs
  induction jobs with
  | nil => intro start; exact ⟨rfl, rfl⟩
  | cons item rest ih =>
    intro start
    have h := ih (start + 1)
    cases hb : body (materialize base item start total) with
    | ok u =>
      simp only [runJobs, hb, processedItems]
      exact ⟨by rw [h.1], h.2⟩
    | error e =>
      simp [runJobs, hb, hcoe, processedItems]
      exact ⟨by rw [h.1], h.2⟩

theorem runJobs_ok_front (body : Args → Except String Unit) (base : Args)
    (perT : Nat → Nat) (total : Nat) :
    ∀ (pre : List String) (start : Nat) (rest : List String),
      (∀ (k : Nat) (hk : k < pre.length),
        body (materialize base (pre.get ⟨k, hk⟩) (start + k) total) = .ok ()) →
      processedItems (runJobs body base perT total start (pre ++ rest)).1 =
        pre ++ processedItems (runJobs body base perT total (start + pre.length) rest).1 ∧
      (runJobs body base perT total start (pre ++ rest)).2 =
        (runJobs body base perT total (start + pre.length) rest).2 ∧
      ∀ ev, ev ∈ (runJobs body base perT total (start + pre.length) rest).1 →
        ev ∈ (runJobs body base perT total start (pre ++ rest)).1 := by
  intro pre
  induction pre with
  | nil => intro start rest _; simp
  | cons p pre ih =>
    intro start rest h
    have hp : body (materialize base p start total) = .ok () := by
      simpa using h 0 (by simp)
    have ihh := ih (start + 1) rest (fun k hk => by
      have hEq : start + 1 + k = start + (k + 1) := by omega
      rw [hEq]
      exact h (k + 1) (Nat.succ_lt_succ hk))
    have hlen : start + (p :: pre).length = start + 1 + pre.length := by
      simp [List.length_cons]; omega
    refine ⟨?_, ?_, ?_⟩
    · rw [List.cons_append]
      simp only [runJobs, hp, processedItems]
      rw [ihh.1, hlen]
      simp
    · rw [List.cons_append]
      simp only [runJobs, hp]
      rw [hlen]
      exact ihh.2.1
    · intro ev hev
      rw [hlen] at hev
      have hin := ihh.2.2 ev hev
      rw [List.cons_append]
      simp only [runJobs, hp, List.mem_cons]
      exact Or.inr (Or.inr hin)

/-- C1: in a batch where the jobs before `bad` all succeed and the
extraction of `bad` raises error `e`: with continue-on-error unset, the attempted
jobs are exactly the prefix up to and including `bad`, the error
propagates (the run reports overall failure), and the failing item and
message were reported; with continue-on-error set, the error is swallowed
after the failure report and every job of the batch is still attempted in
order. -/
theorem claim_c1_continue_on_error_batch (body : Args → Except String Unit)
    (base : Args) (perT : Nat → Nat) (total start : Nat)
    (pre post : List String) (bad e : String)
    (hpre : ∀ (k : Nat) (hk : k < pre.length),
      body (materialize base (pre.get ⟨k, hk⟩) (start + k) total) = .ok ())
    (hbad : body (materialize base bad (start + pre.length) total) = .error e) :
    (base.continueOnError = false →
      processedItems (runJobs body base perT total start (pre ++ bad :: post)).1 =
        pre ++ [bad] ∧
      (runJobs body base perT total start (pre ++ bad :: post)).2 = Option.some e ∧
      Event.failed bad e ∈
        (runJobs body base perT total start (pre ++ bad :: post)).1) ∧
    (base.continueOnError = true →
      processedItems (runJobs body base perT total start (pre ++ bad :: post)).1 =
        pre ++ bad :: post ∧
      (runJobs body base perT total start (pre ++ bad :: post)).2 = Option.none ∧
      Event.failed bad e ∈
        (runJobs body base perT total start (pre ++ bad :: post)).1) := by
  obtain ⟨hP, hR, hM⟩ := runJobs_ok_front body base perT total pre start (bad :: post) hpre
  constructor
  · intro hcoe
    have hTail : runJobs body base perT total (start + pre.length) (bad :: post) =
        ([.processing (start + pre.length) total bad, .failed bad e,
          .jobDone (start + pre.length) total (formatTime (perT (start + pre.length)))],
          Option.some e) := by
      simp [runJobs, hbad, hcoe]
    refine ⟨?_, ?_, ?_⟩
    · rw [hP, hTail]; simp [processedItems]
    · rw [hR, hTail]
    · exact hM _ (by rw [hTail]; simp)
  · intro hcoe
    obtain ⟨hAll, hNone⟩ :=
      runJobs_continue_all body base perT total hcoe post (start + pre.length + 1)
    refine ⟨?_, ?_, ?_⟩
    · rw [hP]
      have hTailP : processedItems
          (runJobs body base perT total (start + pre.length) (bad :: post)).1 =
          bad :: post := by
        simp [runJobs, hbad, hcoe, processedItems, hAll]
      rw [hTailP]
    · rw [hR]
      simp [runJobs, hbad, hcoe, hNone]
    · refine hM _ ?_
      simp [runJobs, hbad, hcoe]

/-- A collaborator failing exactly on the job whose resolved filename is
`"x"`. -/
def bodyFailX : Args → Except String Unit :=
  fun a => if a.filename = "x" then .error "boom" else .ok ()

/-- Witness for C1: a concrete 3-job batch whose second job fails, with
continue-on-error unset — only jobs 1 and 2 are attempted and the error
propagates. -/
theorem claim_c1_continue_on_error_batch_witness :
    processedItems
        (runJobs bodyFailX defaultArgs (fun _ => 0) 3 1 (["naruto"] ++ "x" :: ["y"])).1 =
      ["naruto"] ++ ["x"] ∧
    (runJobs bodyFailX defaultArgs (fun _ => 0) 3 1 (["naruto"] ++ "x" :: ["y"])).2 =
      Option.some "boom" ∧
    Event.failed "x" "boom" ∈
      (runJobs bodyFailX defaultArgs (fun _ => 0) 3 1 (["naruto"] ++ "x" :: ["y"])).1 :=
  (claim_c1_continue_on_error_batch bodyFailX defaultArgs (fun _ => 0) 3 1
    ["naruto"] ["y"] "x" "boom"
    (by
      intro k hk
      simp only [List.length_cons, List.length_nil] at hk
      interval_cases k
      show bodyFailX (materialize defaultArgs "naruto" (1 + 0) 3) = Except.ok ()
      decide)
    (by decide)).1 rfl

/-! ## Total elapsed reporting -/

theorem runJobs_no_took (body : Args → Except String Unit) (base : Args)
    (perT : Nat → Nat) (total : Nat) :
    ∀ (jobs : List String) (start : Nat) (s : String),
      Event.took s ∉ (runJobs body base perT total start jobs).1 := by
  intro jobs
  induction jobs with
  | nil => intro start s h; simp [runJobs] at h
  | cons item rest ih =>
    intro start s h
    cases hb : body (materialize base item start total) with
    | ok u =>
      simp only [runJobs, hb, List.mem_cons] at h
      rcases h with h | h | h
      · exact absurd h (by simp)
      · exact absurd h (by simp)
      · exact ih (start + 1) s h
    | error e =>
      by_cases hcoe : base.continueOnError = true
      · simp only [runJobs, hb, hcoe, if_true, List.mem_cons] at h
        rcases h with h | h | h | h
        · exact absurd h (by simp)
        · exact absurd h (by simp)
        · exact absurd h (by simp)
        · exact ih (start + 1) s h
      · simp only [runJobs, hb, hcoe, if_false, List.mem_cons] at h
        simp at h

theorem mainInit_no_took (body : Args → Except String Unit) (a : Args)
    (fs : String → Option String) (perT : Nat → Nat) (s : String) :
    Event.took s ∉ (mainInit body a fs perT).1 := by
  unfold mainInit
  cases hbj : build_jobs a fs with
  | error e => simp
  | ok jobs =>
    by_cases hj : jobs.isEmpty = true
    · simp [hj]
    · simp only [hj, if_false]
      exact runJobs_no_took body a perT jobs.length jobs 1 s

/-- C8 (amended): the total-elapsed line (minutes, a colon, seconds
zero-padded to width 2) is appended to the output exactly when the run
completes without a propagated error; when a per-job error propagates with
continue-on-error unset (or a missing links file aborts the run), the
process terminates without printing any total-elapsed line. -/
theorem claim_c8_total_elapsed_only_on_success (body : Args → Except String Unit)
    (a : Args) (fs : String → Option String) (perT : Nat → Nat) (totalT : Nat) :
    ((mainProgram body a fs perT totalT).2 = Option.none →
      (mainProgram body a fs perT totalT).1 =
        (mainInit body a fs perT).1 ++ [Event.took (formatTime totalT)]) ∧
    (∀ e, (mainProgram body a fs perT totalT).2 = Option.some e →
      ∀ s, Event.took s ∉ (mainProgram body a fs perT totalT).1) := by
  have hnt := mainInit_no_took body a fs perT
  unfold mainProgram
  cases hmi : mainInit body a fs perT with
  | mk evs res =>
    cases res with
    | none =>
      refine ⟨fun _ => ?_, fun e he => ?_⟩
      · rfl
      · cases he
    | some err =>
      refine ⟨fun hc => ?_, fun e he s hmem => ?_⟩
      · cases hc
      · have hs := hnt s
        rw [hmi] at hs
        exact hs hmem

/-- A collaborator that always fails. -/
def bodyBoom : Args → Except String Unit := fun _ => .error "boom"

/-- C8 counterexample: a one-job run whose job fails with continue-on-error
unset propagates the error and its output contains NO total-elapsed line,
refuting that the total elapsed time is printed on every exit path. -/
theorem claim_c8_counterexample_no_total_on_abort :
    (mainProgram bodyBoom { defaultArgs with link := .list ["a"] }
        (fun _ => Option.none) (fun _ => 0) 125).2 = Option.some "boom" ∧
    ((mainProgram bodyBoom { defaultArgs with link := .list ["a"] }
        (fun _ => Option.none) (fun _ => 0) 125).1.all fun ev => !ev.isTook) = true :=
  ⟨by decide, by decide⟩

/-! ## Base-configuration preservation and the interactive session -/

theorem dispatchRun_self (exec : Strategy → Args → Except String Unit)
    (rawPasted : List String) (self jobArgs : Args) :
    (dispatchRun exec rawPasted self jobArgs).1 =
      (if entersInteractive jobArgs = true ∧ (readItems rawPasted).length > 1
       then { self with link := .list [] } else self) := by
  by_cases hI : entersInteractive jobArgs = true
  · by_cases hL : (readItems rawPasted).length > 1
    · rw [if_pos ⟨hI, hL⟩]
      unfold dispatchRun
      simp only [hI, if_true, hL]
      cases hr : (nestedRun exec { self with link := .list [] }
          (readItems rawPasted).length 1 (readItems rawPasted)).2 <;> simp [hr]
    · rw [if_neg (fun hc => hL hc.2)]
      unfold dispatchRun
      simp only [hI, if_true, hL, if_false]
      split <;> rfl
  · rw [if_neg (fun hc => hI hc.1)]
    unfold dispatchRun
    simp [hI]

/-- C5 (amended): dispatching a job leaves the base namespace unchanged on
every path except the interactive multi-item branch, which resets the base
link list to empty; every field other than the link list is preserved on
every path, and a job that does not enter the interactive branch preserves
the base namespace entirely. -/
theorem claim_c5_base_config_only_interactive_link_reset
    (exec : Strategy → Args → Except String Unit) (rawPasted : List String)
    (self jobArgs : Args) :
    ((dispatchRun exec rawPasted self jobArgs).1 = self ∨
      (dispatchRun exec rawPasted self jobArgs).1 = { self with link := .list [] }) ∧
    (entersInteractive jobArgs = false →
      (dispatchRun exec rawPasted self jobArgs).1 = self) ∧
    ((dispatchRun exec rawPasted self jobArgs).1.filename = self.filename ∧
      (dispatchRun exec rawPasted self jobArgs).1.continueOnError = self.continueOnError ∧
      (dispatchRun exec rawPasted self jobArgs).1.outputDir = self.outputDir ∧
      (dispatchRun exec rawPasted self jobArgs).1.noSubtitles = self.noSubtitles ∧
      (dispatchRun exec rawPasted self jobArgs).1.aria = self.aria ∧
      (dispatchRun exec rawPasted self jobArgs).1.linksFile = self.linksFile ∧
      (dispatchRun exec rawPasted self jobArgs).1.server = self.server) := by
  have h := dispatchRun_self exec rawPasted self jobArgs
  by_cases hc : entersInteractive jobArgs = true ∧ (readItems rawPasted).length > 1
  · rw [if_pos hc] at h
    rw [h]
    exact ⟨Or.inr rfl, fun hI => absurd hc.1 (by simp [hI]),
      rfl, rfl, rfl, rfl, rfl, rfl, rfl⟩
  · rw [if_neg hc] at h
    rw [h]
    exact ⟨Or.inl rfl, fun _ => rfl, rfl, rfl, rfl, rfl, rfl, rfl, rfl⟩

/-- C5 counterexample: in a run whose base namespace carries link list
[""], the (reachable) empty-string job enters the interactive branch, and
pasting two items there mutates the base namespace — the base
configuration after the dispatch differs from the one before it. -/
theorem claim_c5_counterexample_interactive_mutates_base :
    (dispatchRun execOk ["a", "b", ""] { defaultArgs with link := .list [""] }
        (materialize { defaultArgs with link := .list [""] } "" 1 1)).1 ≠
      { defaultArgs with link := .list [""] } := by
  decide

/-- C6 (amended): a job materialized from a non-empty collected item never
enters the interactive prompt path (an empty-string item — collectable
only through an explicit empty link flag — does enter it). -/
theorem claim_c6_no_interactive_for_nonempty_items (base : Args)
    (fs : String → Option String) (jobs : List String) (item : String)
    (idx total : Nat) (_hcollect : build_jobs base fs = .ok jobs)
    (_hmem : item ∈ jobs) (hne : item ≠ "") :
    entersInteractive (materialize base item idx total) = false :=
  not_interactive_of_ne_empty base item idx total hne

/-- Witness for C6: a run collecting the single search term "naruto" never
reaches the interactive prompt. -/
theorem claim_c6_no_interactive_for_nonempty_items_witness :
    entersInteractive
      (materialize { defaultArgs with filename := "naruto" } "naruto" 1 1) = false :=
  claim_c6_no_interactive_for_nonempty_items { defaultArgs with filename := "naruto" }
    (fun _ => Option.none) ["naruto"] "naruto" 1 1 (by decide) (by decide) (by decide)

/-- C6 counterexample: a run invoked with one (empty-string) link flag
collects one item, yet the dispatch of that job satisfies the interactive-entry
condition — refuting that the interactive session is entered only when
zero items were collected. -/
theorem claim_c6_counterexample_empty_link_flag :
    build_jobs { defaultArgs with link := .list [""] } (fun _ => Option.none) =
      .ok [""] ∧
    entersInteractive (materialize { defaultArgs with link := .list [""] } "" 1 1) =
      true :=
  ⟨by decide, by decide⟩

/-! ## The interactive multi-item nested batch -/

theorem nestedRun_all_ok (exec : Strategy → Args → Except String Unit) (self : Args)
    (n : Nat) (hok : ∀ (s : Strategy) (a : Args), exec s a = .ok ()) :
    ∀ (items : List String) (start : Nat),
      nestedRun exec self n start items =
        ((items.enumFrom start).map fun q =>
          (routeCore (materializeNested self q.2 q.1 n),
            materializeNested self q.2 q.1 n), Option.none) := by
  intro items
  induction items with
  | nil => intro start; rfl
  | cons it rest ih =>
    intro start
    simp only [nestedRun, hok, List.enumFrom, List.map_cons]
    rw [ih (start + 1)]

/-- C7 (amended): each interactively pasted item is materialized by exactly
the same transformation as the normal batch path (with the pasted count as
the batch size); but the nested batch runs the items directly — without
deduplication, and a failing item makes the error propagate immediately
regardless of the continue-on-error policy, with the remaining pasted
items never attempted and no per-job timing or progress reported. -/
theorem claim_c7_interactive_nested_batch (exec : Strategy → Args → Except String Unit)
    (self : Args) (n start : Nat) (items : List String) (it : String)
    (rest : List String) (e : String) :
    (materializeNested self it start n = materialize self it start n) ∧
    ((∀ (s : Strategy) (a : Args), exec s a = .ok ()) →
      nestedRun exec self n start items =
        ((items.enumFrom start).map fun q =>
          (routeCore (materializeNested self q.2 q.1 n),
            materializeNested self q.2 q.1 n), Option.none)) ∧
    (exec (routeCore (materializeNested self it start n))
        (materializeNested self it start n) = .error e →
      nestedRun exec self n start (it :: rest) =
        ([(routeCore (materializeNested self it start n),
            materializeNested self it start n)], Option.some e)) := by
  refine ⟨rfl, fun hok => nestedRun_all_ok exec self n hok items start, fun herr => ?_⟩
  simp [nestedRun, herr]

/-- C7 counterexample: pasting the same URL twice at the interactive prompt
runs two extractions, while the normal batch path over the same raw items
deduplicates and runs exactly one — the two paths are not equivalent. -/
theorem claim_c7_counterexample_no_dedup_in_nested :
    (nestedRun execOk defaultArgs 2 1 ["http://a.com", "http://a.com"]).1.length = 2 ∧
    dedup ["http://a.com", "http://a.com"] = ["http://a.com"] ∧
    (batchRun execOk defaultArgs 1 1 (dedup ["http://a.com", "http://a.com"])).1.length = 1 :=
  ⟨by decide, by decide, by decide⟩

/-- A collaborator that always completes (dispatch-level oracle used by the
claim witnesses). -/
def bodyOk : Args → Except String Unit := fun _ => .ok ()

/-- Witness for C9: a run pointing at a non-existent links file produces
the missing-file error and an empty output trace. -/
theorem claim_c9_links_file_missing_and_parsing_witness :
    mainProgram bodyOk { defaultArgs with linksFile := Option.some "missing" }
        (fun _ => Option.none) (fun _ => 0) 0 =
      ([], Option.some ("links file not found: " ++ "missing")) :=
  (claim_c9_links_file_missing_and_parsing
    { defaultArgs with linksFile := Option.some "missing" } (fun _ => Option.none)
    "missing" bodyOk (fun _ => 0) 0 rfl (by decide)).1 rfl

end Hianime
